import Mathlib

/-!
Verification development for the LemmeTalk voice-assistant core.

The definitions below are a shallow embedding of `src/voice_loop.py` and
`src/workflows/__init__.py`.  External collaborators (the OpenAI completion
calls, the Pydantic AI agents) are modelled as explicit parameters: a
classification call is an `Except String String` (error message or response
text), an agent run is an `Except String WorkflowOutput`.  Python strings are
`List Char` / `String`; the specific regular expressions used by
`clean_text_for_tts` are translated substitution by substitution, preserving
Python's leftmost-match, greedy-quantifier, continue-after-match semantics.
-/

namespace LemmeTalk

/-- ASCII digit test, Python's `\d` on the ASCII range. -/
def isDigitC (c : Char) : Bool := '0' ≤ c && c ≤ '9'

/-- Python's `\s` character class: space, tab, newline, carriage return,
vertical tab, form feed. -/
def isWsC (c : Char) : Bool :=
  c == ' ' || c == '\t' || c == '\n' || c == '\r' || c == '\x0b' || c == '\x0c'

/-- The backquote character used as the code delimiter. -/
def btick : Char := Char.ofNat 96

/-- The replacement text of the complexity-notation rewrites. -/
def bigO : List Char := ("big O of ").data

/-- One left-to-right pass of `re.sub(r'\d+\.\s*', '', text)`.
`skip` is true while greedily consuming the `\s*` tail of a match;
`pend` holds (reversed) the digit run currently being scanned, which is
emitted unchanged unless a `.` immediately follows it. -/
def sndGo : Bool → List Char → List Char → List Char
  | _, pend, [] => pend.reverse
  | skip, pend, c :: cs =>
    if skip && isWsC c then sndGo true [] cs
    else if isDigitC c then sndGo false (c :: pend) cs
    else if c == '.' && !pend.isEmpty then sndGo true [] cs
    else pend.reverse ++ c :: sndGo false [] cs

/-- `re.sub(r'\d+\.\s*', '', text)`: remove digit runs followed by a period
and trailing whitespace, at every position of the string. -/
def subNumDot (l : List Char) : List Char := sndGo false [] l

/-- `re.sub(r'\*\*([^*]+)\*\*', r'\1', text)`, fuelled so that the
definition is structurally recursive and kernel-reducible. -/
def subBoldF : Nat → List Char → List Char
  | 0, l => l
  | _ + 1, [] => []
  | fuel + 1, '*' :: '*' :: rest =>
    match rest.takeWhile (fun c => c != '*'), rest.dropWhile (fun c => c != '*') with
    | inner@(_ :: _), '*' :: '*' :: r => inner ++ subBoldF fuel r
    | _, _ => '*' :: subBoldF fuel ('*' :: rest)
  | fuel + 1, c :: cs => c :: subBoldF fuel cs

def subBold (l : List Char) : List Char := subBoldF l.length l

/-- `re.sub(r'\*([^*]+)\*', r'\1', text)`. -/
def subItalicF : Nat → List Char → List Char
  | 0, l => l
  | _ + 1, [] => []
  | fuel + 1, '*' :: rest =>
    match rest.takeWhile (fun c => c != '*'), rest.dropWhile (fun c => c != '*') with
    | inner@(_ :: _), '*' :: r => inner ++ subItalicF fuel r
    | _, _ => '*' :: subItalicF fuel rest
  | fuel + 1, c :: cs => c :: subItalicF fuel cs

def subItalic (l : List Char) : List Char := subItalicF l.length l

/-- The code-delimiter substitution with the backquote delimiter. -/
def subCodeF : Nat → List Char → List Char
  | 0, l => l
  | _ + 1, [] => []
  | fuel + 1, c :: cs =>
    if c == btick then
      match cs.takeWhile (fun d => d != btick), cs.dropWhile (fun d => d != btick) with
      | inner@(_ :: _), _ :: r => inner ++ subCodeF fuel r
      | _, _ => c :: subCodeF fuel cs
    else c :: subCodeF fuel cs

def subCode (l : List Char) : List Char := subCodeF l.length l

/-- `re.sub(r'O\(([^)]+)\)', r'big O of \1', text)`. -/
def subOFullF : Nat → List Char → List Char
  | 0, l => l
  | _ + 1, [] => []
  | fuel + 1, 'O' :: '(' :: rest =>
    match rest.takeWhile (fun c => c != ')'), rest.dropWhile (fun c => c != ')') with
    | inner@(_ :: _), _ :: r => bigO ++ inner ++ subOFullF fuel r
    | _, _ => 'O' :: subOFullF fuel ('(' :: rest)
  | fuel + 1, c :: cs => c :: subOFullF fuel cs

def subOFull (l : List Char) : List Char := subOFullF l.length l

/-- `re.sub(r'O\(', 'big O of ', text)`: rewrite every remaining `O(`. -/
def subOpen : List Char → List Char
  | [] => []
  | 'O' :: '(' :: rest => bigO ++ subOpen rest
  | c :: cs => c :: subOpen cs

/-- `re.sub(r'\n+', ' ', text)`: collapse every newline run to one space. -/
def subNl : List Char → List Char
  | [] => []
  | '\n' :: rest =>
    match rest with
    | '\n' :: _ => subNl rest
    | _ => ' ' :: subNl rest
  | c :: cs => c :: subNl cs

/-- `re.sub(r'\s+', ' ', text)`: collapse every whitespace run to one space. -/
def subWsRun : List Char → List Char
  | [] => []
  | c :: cs =>
    if isWsC c then
      match cs with
      | d :: _ => if isWsC d then subWsRun cs else ' ' :: subWsRun cs
      | [] => [' ']
    else c :: subWsRun cs

/-- Python `str.strip()` on the whitespace class. -/
def stripWs (l : List Char) : List Char :=
  ((l.dropWhile (fun c => isWsC c)).reverse.dropWhile (fun c => isWsC c)).reverse

/-- `clean_text_for_tts` from `src/voice_loop.py`, on character lists: the
eight `re.sub` passes in source order followed by the final `strip`. -/
def cleanList (l : List Char) : List Char :=
  stripWs (subWsRun (subNl (subOpen (subOFull (subCode (subItalic (subBold (subNumDot l))))))))

/-- `clean_text_for_tts` from `src/voice_loop.py` on strings. -/
def clean_text_for_tts (s : String) : String := String.mk (cleanList s.data)

/-! ## Workflows (`src/workflows/__init__.py`) -/

/-- A workflow as registered with the manager: its `name`
(`self.__class__.__name__`), description, trigger keyword list, and whether
`_setup_agent` installed an agent (`self.agent is not None`). -/
structure Workflow where
  name : String
  description : String
  triggers : List String
  hasAgent : Bool
deriving DecidableEq

/-- `WorkflowOutput`: the result model every workflow returns. -/
structure WorkflowOutput where
  response : String
  success : Bool
  workflow_name : String
deriving DecidableEq

/-- `pre` is a prefix of the first list (Python `str.startswith` on the
character level, used to build substring containment). -/
def startsList : List Char → List Char → Bool
  | _, [] => true
  | [], _ :: _ => false
  | c :: cs, d :: ds => c == d && startsList cs ds

/-- Python's `needle in haystack` substring test. -/
def containsSub : List Char → List Char → Bool
  | [], needle => needle.isEmpty
  | c :: cs, needle => startsList (c :: cs) needle || containsSub cs needle

/-- Lower-case a character list, Python `str.lower()` on ASCII. -/
def toLowerL (l : List Char) : List Char := l.map Char.toLower

/-- `BaseWorkflow.can_handle`: some trigger keyword, lower-cased, occurs as a
substring of the lower-cased user input. -/
def can_handle (w : Workflow) (userInput : String) : Bool :=
  w.triggers.any (fun t => containsSub (toLowerL userInput.data) (toLowerL t.data))

/-- `BaseWorkflow.execute`.  The external `self.agent.run` call is the
explicit parameter `runResult`: `.ok r` models a normal return, `.error e`
models the handler raising an exception whose `str` is `e`.  The function is
total: every alternative, the raising one included, yields a
`WorkflowOutput`, which is how the source's `try/except` keeps exceptions
from propagating out of `execute`. -/
def execute (w : Workflow) (runResult : Except String WorkflowOutput) : WorkflowOutput :=
  if w.hasAgent then
    match runResult with
    | .ok r => ⟨r.response, r.success, w.name⟩
    | .error e => ⟨"Sorry, I encountered an error: " ++ e, false, w.name⟩
  else ⟨"This workflow is not properly configured.", false, w.name⟩

/-- The linear scan `for workflow in self.workflows.values(): if
workflow.name == selected` of `get_workflow_for_input`. -/
def findByName : List Workflow → String → Option Workflow
  | [], _ => none
  | w :: ws, n => if w.name == n then some w else findByName ws n

/-- The keyword-fallback scan `for workflow in self.workflows.values(): if
workflow.can_handle(user_input)` of `get_workflow_for_input`. -/
def firstCanHandle : List Workflow → String → Option Workflow
  | [], _ => none
  | w :: ws, u => if can_handle w u then some w else firstCanHandle ws u

/-- `WorkflowManager.get_workflow_for_input`.  `registry` is
`self.workflows.values()` in insertion order; the external OpenAI
classification call is the parameter `classify` (`.ok text` a response,
`.error e` a raised exception). -/
def get_workflow_for_input (registry : List Workflow) (userInput : String)
    (classify : Except String String) : Option Workflow :=
  if registry.isEmpty then none
  else
    match classify with
    | .ok selected =>
        if selected == "general" then none
        else findByName registry selected
    | .error _ => firstCanHandle registry userInput

/-- Python `dict` assignment `d[k] = v`: overwrite the entry in place when
the key is present (keys are unique, so replacing the first occurrence is
the dict behaviour), else append at the end (insertion order preserved). -/
def dictInsert : List (String × Workflow) → String → Workflow →
    List (String × Workflow)
  | [], k, v => [(k, v)]
  | p :: rest, k, v => if p.1 == k then (k, v) :: rest else p :: dictInsert rest k v

/-- `WorkflowManager._load_workflows`: each discovered workflow is stored
with `self.workflows[workflow.name] = workflow`, one dict assignment per
workflow in discovery order.  The function is total: no duplicate check is
performed and no error is ever raised. -/
def load_workflows (ws : List Workflow) : List (String × Workflow) :=
  ws.foldl (fun reg w => dictInsert reg w.name w) []

/-- Python `dict.get(name)`: the value under the key, or `None`. -/
def dictGet (reg : List (String × Workflow)) (k : String) : Option Workflow :=
  (reg.find? (fun p => p.1 == k)).map (fun p => p.2)

/-- `WorkflowManager.get_workflow`: `self.workflows.get(name)`. -/
def get_workflow (reg : List (String × Workflow)) (name : String) : Option Workflow :=
  dictGet reg name

/-! ## Voice loop (`src/voice_loop.py`) -/

/-- Message roles of the conversation history. -/
inductive Role where
  | user
  | assistant
  | system
deriving DecidableEq

/-- One `{"role": ..., "content": ...}` message. -/
structure Turn where
  role : Role
  content : String
deriving DecidableEq

/-- Python `lst[-n:]`: the last `n` elements (the whole list when it is
shorter). -/
def lastN (n : Nat) (l : List Turn) : List Turn := l.drop (l.length - n)

/-- The persona system prompt of `general_chat_with_context`. -/
def personaPrompt : String :=
  "You are a friendly, conversational voice assistant optimized for text-to-speech. CRITICAL: Write exactly as you would speak to someone in person. NEVER use numbered lists, bullet points, or formatting symbols. Instead, use natural speech patterns like \x27first\x27, \x27second\x27, \x27third\x27, \x27next\x27, \x27finally\x27, \x27also\x27, \x27additionally\x27. Convert all technical content into conversational speech. For example, instead of \x271. Insert: O(log n)\x27, say \x27First, let\x27s talk about insertion. This typically takes logarithmic time on average.\x27 Avoid reading out any symbols, numbers, or formatting - just speak the content naturally and conversationally. IMPORTANT: Maintain context from the conversation history and respond appropriately to follow-up questions or clarifications."

/-- The system message built by `general_chat_with_context`. -/
def systemMessage : Turn := ⟨Role.system, personaPrompt⟩

/-- The message list `[system_message] + conversation_history[-10:]` that
`general_chat_with_context` passes to the completion call. -/
def chatMessages (conversation_history : List Turn) : List Turn :=
  systemMessage :: lastN 10 conversation_history

/-- `general_chat_with_context`'s return value: the external completion
response (parameter `ext`), `.strip()`ed, then cleaned for TTS. -/
def general_chat_with_context (ext : String) : String :=
  clean_text_for_tts (String.mk (stripWs ext.data))

/-- The history-bounding step of `process_user_input`:
`if len(h) > 20: h[:] = h[-20:]`. -/
def boundHistory (h : List Turn) : List Turn :=
  if h.length > 20 then lastN 20 h else h

/-- `process_user_input`: returns the spoken response and the updated
`conversation_history`.  The routing decision, the selected workflow's
`execute` result, and the fallback completion response are the explicit
parameters `routed`, `execResult`, `ext` (they come from external calls). -/
def process_user_input (user_text : String) (history : List Turn)
    (routed : Option Workflow) (execResult : WorkflowOutput) (ext : String) :
    String × List Turn :=
  if user_text = "" then ("", history)
  else
    let h1 := history ++ [⟨Role.user, user_text⟩]
    match routed with
    | some _ =>
        let response := clean_text_for_tts execResult.response
        (response, boundHistory (h1 ++ [⟨Role.assistant, response⟩]))
    | none =>
        let response := general_chat_with_context ext
        (response, boundHistory (h1 ++ [⟨Role.assistant, response⟩]))

/-! ## Sample data: the four workflows shipped with the repository, with the
trigger lists of `src/workflows/*_workflow.py`. -/

def shoppingWorkflow : Workflow :=
  ⟨"ShoppingWorkflow", "Add items to shopping list",
    ["shopping", "shopping list", "add to list", "buy", "purchase",
     "grocery", "shopping cart", "add", "list", "items"], true⟩

def remindersWorkflow : Workflow :=
  ⟨"RemindersWorkflow", "Manage reminders and todos",
    ["reminder", "remind me", "add reminder", "set reminder",
     "remind", "todo", "task"], true⟩

def newsWorkflow : Workflow :=
  ⟨"NewsWorkflow", "Read news summaries",
    ["news", "hacker news", "hn", "top articles", "news bulletin",
     "read news", "latest news", "tech news"], true⟩

def weatherWorkflow : Workflow :=
  ⟨"WeatherWorkflow", "Get weather information",
    ["weather", "temperature", "forecast", "how\x27s the weather",
     "what\x27s the weather like", "weather today"], true⟩

/-- The registry with all four shipped workflows, in discovery order. -/
def sampleRegistry : List Workflow :=
  [newsWorkflow, remindersWorkflow, shoppingWorkflow, weatherWorkflow]

/-- Holds when no position of the list has a digit immediately followed by
a period: the shape every match of the list-marker pattern starts with. -/
def noDigitDot : List Char → Bool
  | [] => true
  | [_] => true
  | c :: d :: rest => !(isDigitC c && d == '.') && noDigitDot (d :: rest)

/-- A system turn for the history-bounding counterexample. -/
def c6SysTurn : Turn := ⟨Role.system, "persona"⟩

/-- A 19-turn transcript whose first turn is a system turn. -/
def c6Hist : List Turn := c6SysTurn :: List.replicate 18 (⟨Role.user, "x"⟩ : Turn)

/-- Two distinct workflows carrying the same registered name. -/
def dupFirst : Workflow := ⟨"ShoppingWorkflow", "first registration", ["buy"], true⟩

def dupSecond : Workflow := ⟨"ShoppingWorkflow", "second registration", ["shop"], true⟩

/-- A 12-turn transcript, within the 20-turn cap but longer than the
10-message context window of the fallback conversationalist. -/
def c9Hist : List Turn :=
  [⟨Role.user, "t1"⟩, ⟨Role.user, "t2"⟩, ⟨Role.user, "t3"⟩, ⟨Role.user, "t4"⟩,
   ⟨Role.user, "t5"⟩, ⟨Role.user, "t6"⟩, ⟨Role.user, "t7"⟩, ⟨Role.user, "t8"⟩,
   ⟨Role.user, "t9"⟩, ⟨Role.user, "t10"⟩, ⟨Role.user, "t11"⟩, ⟨Role.user, "t12"⟩]

/-! ## Helper lemmas -/

theorem findByName_mem {ws : List Workflow} {n : String} {w : Workflow}
    (h : findByName ws n = some w) : w ∈ ws := by
  induction ws with
  | nil => simp [findByName] at h
  | cons x xs ih =>
    rw [findByName] at h
    split at h
    · obtain rfl := Option.some.inj h
      exact List.mem_cons_self x xs
    · exact List.mem_cons_of_mem _ (ih h)

theorem firstCanHandle_mem {ws : List Workflow} {u : String} {w : Workflow}
    (h : firstCanHandle ws u = some w) : w ∈ ws := by
  induction ws with
  | nil => simp [firstCanHandle] at h
  | cons x xs ih =>
    rw [firstCanHandle] at h
    split at h
    · obtain rfl := Option.some.inj h
      exact List.mem_cons_self x xs
    · exact List.mem_cons_of_mem _ (ih h)

theorem firstCanHandle_some {ws : List Workflow} {u : String} {w : Workflow}
    (h : firstCanHandle ws u = some w) :
    can_handle w u = true ∧
      ∃ pre post, ws = pre ++ w :: post ∧ ∀ x ∈ pre, can_handle x u = false := by
  induction ws with
  | nil => simp [firstCanHandle] at h
  | cons x xs ih =>
    by_cases hx : can_handle x u
    · simp [firstCanHandle, hx] at h
      subst h
      exact ⟨hx, [], xs, rfl, by simp⟩
    · simp [firstCanHandle, hx] at h
      obtain ⟨hw, pre, post, hsplit, hpre⟩ := ih h
      refine ⟨hw, x :: pre, post, by simp [hsplit], ?_⟩
      intro y hy
      rcases List.mem_cons.mp hy with rfl | hy'
      · exact Bool.not_eq_true _ ▸ by simpa using hx
      · exact hpre y hy'

theorem firstCanHandle_none {ws : List Workflow} {u : String} :
    firstCanHandle ws u = none ↔ ∀ w ∈ ws, can_handle w u = false := by
  induction ws with
  | nil => simp [firstCanHandle]
  | cons x xs ih =>
    cases hx : can_handle x u with
    | true =>
      rw [firstCanHandle, if_pos hx]
      constructor
      · intro h
        exact absurd h (by simp)
      · intro hall
        have hfx := hall x (List.mem_cons_self x xs)
        rw [hx] at hfx
        exact absurd hfx (by simp)
    | false =>
      rw [firstCanHandle, if_neg (by simp [hx]), ih]
      constructor
      · intro h w hw
        rcases List.mem_cons.mp hw with rfl | hw'
        · exact hx
        · exact h w hw'
      · intro hall w hw
        exact hall w (List.mem_cons_of_mem x hw)

/-- In the classification-error branch the router is exactly the keyword
scan (the empty-registry early return agrees with the scan on `[]`). -/
theorem route_error_eq_scan (registry : List Workflow) (u e : String) :
    get_workflow_for_input registry u (.error e) = firstCanHandle registry u := by
  cases registry with
  | nil => simp [get_workflow_for_input, firstCanHandle]
  | cons x xs => simp [get_workflow_for_input]

/-! ## Claims -/

/-- C1: for every utterance, conversation context, and registry, and every
outcome of the external classification call (a response text or a raised
exception), `get_workflow_for_input` returns either a workflow that is
registered in the registry or `none`; it never returns an unregistered
workflow, the fallback-token and unrecognized-response cases included. -/
theorem route_selects_registered (registry : List Workflow) (userInput : String)
    (classify : Except String String) (w : Workflow)
    (h : get_workflow_for_input registry userInput classify = some w) :
    w ∈ registry := by
  unfold get_workflow_for_input at h
  by_cases hreg : registry.isEmpty
  · simp [hreg] at h
  · cases classify with
    | ok selected =>
      by_cases hg : selected = "general"
      · simp [hreg, hg] at h
      · simp [hreg, hg] at h
        exact findByName_mem h
    | error e =>
      simp [hreg] at h
      exact firstCanHandle_mem h

/-- Witness for C1: a concrete classification response selecting
`WeatherWorkflow` yields a workflow registered in the sample registry. -/
theorem route_selects_registered_witness : weatherWorkflow ∈ sampleRegistry :=
  route_selects_registered sampleRegistry "what is the weather"
    (.ok "WeatherWorkflow") weatherWorkflow (by decide)

/-- C2: when the workflow's agent is configured and the handler raises an
exception with cause string `e`, `execute` returns a result with
`success = false` and response text `"Sorry, I encountered an error: " ++ e`;
being a total function, `execute` propagates no exception. -/
theorem execute_converts_exception (w : Workflow) (e : String)
    (h : w.hasAgent = true) :
    execute w (.error e) =
      ⟨"Sorry, I encountered an error: " ++ e, false, w.name⟩ := by
  simp [execute, h]

/-- Witness for C2 at a concrete workflow and cause string. -/
theorem execute_converts_exception_witness :
    execute shoppingWorkflow (.error "boom") =
      ⟨"Sorry, I encountered an error: boom", false, "ShoppingWorkflow"⟩ :=
  execute_converts_exception shoppingWorkflow "boom" (by decide)

/-- C3: when the external classification call raises, the router scans the
registered workflows in registration order and returns the first whose
trigger keywords give a case-insensitive substring match in the utterance;
it returns `none` exactly when no registered workflow's keywords match. -/
theorem route_classify_error_keyword_fallback (registry : List Workflow)
    (userInput e : String) :
    (∀ w, get_workflow_for_input registry userInput (.error e) = some w →
        can_handle w userInput = true ∧
        ∃ pre post, registry = pre ++ w :: post ∧
          ∀ x ∈ pre, can_handle x userInput = false) ∧
    (get_workflow_for_input registry userInput (.error e) = none ↔
        ∀ w ∈ registry, can_handle w userInput = false) := by
  rw [route_error_eq_scan]
  exact ⟨fun _ h => firstCanHandle_some h, firstCanHandle_none⟩

/-- Witness for C3: with the classification call failing, the utterance
"add milk to my shopping list" is routed by pure keyword matching to the
first matching workflow of the sample registry. -/
theorem route_classify_error_keyword_fallback_witness :
    can_handle shoppingWorkflow "add milk to my shopping list" = true ∧
    ∃ pre post, sampleRegistry = pre ++ shoppingWorkflow :: post ∧
      ∀ x ∈ pre, can_handle x "add milk to my shopping list" = false :=
  (route_classify_error_keyword_fallback sampleRegistry
    "add milk to my shopping list" "timeout").1 shoppingWorkflow (by decide)

/-- C10: on the empty utterance `process_user_input` returns the empty
string and the conversation history unchanged, whatever the routing
decision, execution result, or completion response would have been: no user
turn is appended, nothing is executed, no assistant turn is appended. -/
theorem process_empty_input_no_op (history : List Turn) (routed : Option Workflow)
    (execResult : WorkflowOutput) (ext : String) :
    process_user_input "" history routed execResult ext = ("", history) := by
  simp [process_user_input]

/-! ### C6: history bounding -/

theorem boundHistory_length_le (l : List Turn) : (boundHistory l).length ≤ 20 := by
  unfold boundHistory lastN
  split
  next h => simp only [List.length_drop]; omega
  next h => omega

theorem boundHistory_isDrop (l : List Turn) : ∃ k, boundHistory l = l.drop k := by
  unfold boundHistory lastN
  split
  · exact ⟨l.length - 20, rfl⟩
  · exact ⟨0, (List.drop_zero l).symm⟩

/-- C6 counterexample: on a 19-turn transcript led by a system turn, one
more processed turn pushes the history to 21 entries and the bounding step
`history[-20:]` evicts the system turn, contradicting the claim that a
system turn is never evicted. -/
theorem bound_evicts_system_turn :
    c6SysTurn ∈ c6Hist ∧
    (process_user_input "hi" c6Hist none ⟨"", true, ""⟩ "ok").2.length = 20 ∧
    c6SysTurn ∉ (process_user_input "hi" c6Hist none ⟨"", true, ""⟩ "ok").2 := by
  decide

/-- C6 amended: after every completed turn on a non-empty utterance the
conversation history holds at most 20 turns, and the bounding step keeps a
suffix of the appended history (the most recent turns) with no regard to
role: a system turn is retained only while it lies within the last 20
turns. -/
theorem process_bounds_history (user_text : String) (history : List Turn)
    (routed : Option Workflow) (execResult : WorkflowOutput) (ext : String)
    (hne : user_text ≠ "") :
    (process_user_input user_text history routed execResult ext).2.length ≤ 20 ∧
    ∃ (k : Nat) (response : String),
      (process_user_input user_text history routed execResult ext).2 =
      (history ++ [Turn.mk Role.user user_text, Turn.mk Role.assistant response]).drop k := by
  unfold process_user_input
  rw [if_neg hne]
  cases routed with
  | some w =>
    refine ⟨boundHistory_length_le _, ?_⟩
    obtain ⟨k, hk⟩ := boundHistory_isDrop
      ((history ++ [⟨Role.user, user_text⟩]) ++
        [⟨Role.assistant, clean_text_for_tts execResult.response⟩])
    refine ⟨k, clean_text_for_tts execResult.response, ?_⟩
    show boundHistory _ = _
    rw [hk, List.append_assoc]
    rfl
  | none =>
    refine ⟨boundHistory_length_le _, ?_⟩
    obtain ⟨k, hk⟩ := boundHistory_isDrop
      ((history ++ [⟨Role.user, user_text⟩]) ++
        [⟨Role.assistant, general_chat_with_context ext⟩])
    refine ⟨k, general_chat_with_context ext, ?_⟩
    show boundHistory _ = _
    rw [hk, List.append_assoc]
    rfl

/-- Witness for the amended C6 at a concrete turn. -/
theorem process_bounds_history_witness :
    (process_user_input "hi" [] none ⟨"", true, ""⟩ "ok").2.length ≤ 20 ∧
    ∃ (k : Nat) (response : String),
      (process_user_input "hi" [] none ⟨"", true, ""⟩ "ok").2 =
      (([] : List Turn) ++ [Turn.mk Role.user "hi", Turn.mk Role.assistant response]).drop k :=
  process_bounds_history "hi" [] none ⟨"", true, ""⟩ "ok" (by decide)

/-! ### C7: duplicate registration -/

/-- C7 counterexample: loading two workflows with the same name raises
nothing — `load_workflows` is total and returns a registry — and silently
keeps only the later workflow, where the claim demands a
`DuplicateCapabilityError` failure. -/
theorem duplicate_registration_silently_overwrites :
    load_workflows [dupFirst, dupSecond] = [("ShoppingWorkflow", dupSecond)] ∧
    get_workflow (load_workflows [dupFirst, dupSecond]) "ShoppingWorkflow" =
      some dupSecond := by
  decide

theorem dictGet_insert_self (reg : List (String × Workflow)) (k : String)
    (v : Workflow) : dictGet (dictInsert reg k v) k = some v := by
  induction reg with
  | nil => simp [dictInsert, dictGet]
  | cons p rest ih =>
    rw [dictInsert]
    by_cases hp : p.1 = k
    · rw [if_pos (by simpa using hp)]
      simp [dictGet]
    · have hbeq : (p.1 == k) = false := by simpa using hp
      rw [if_neg (by simp [hbeq])]
      simp only [dictGet, List.find?, hbeq]
      exact ih

/-- C7 amended: duplicate registration is silently accepted; the dict
assignment `self.workflows[workflow.name] = workflow` makes the last
workflow registered under a name the one the registry retains, and loading
always completes without error. -/
theorem load_workflows_last_wins (ws : List Workflow) (w : Workflow) :
    get_workflow (load_workflows (ws ++ [w])) w.name = some w := by
  unfold load_workflows get_workflow
  rw [List.foldl_append]
  exact dictGet_insert_self _ _ _

/-! ### C8: registry lookup -/

/-- C8 counterexample: `get_workflow` on an unregistered name returns
`none` silently — there is no `NotFoundError` anywhere in the code. -/
theorem get_workflow_missing_returns_none :
    get_workflow (load_workflows [weatherWorkflow]) "NewsWorkflow" = none := by
  decide

/-- C8 amended: `get_workflow` returns a handler stored in the registry
under the requested name when one is present, and `none` — not an error —
when no capability of that name is registered. -/
theorem get_workflow_lookup (reg : List (String × Workflow)) (name : String) :
    (∀ w, get_workflow reg name = some w → (name, w) ∈ reg) ∧
    (get_workflow reg name = none ↔ ∀ p ∈ reg, p.1 ≠ name) := by
  constructor
  · intro w hw
    unfold get_workflow dictGet at hw
    obtain ⟨p, hfind, hp⟩ := Option.map_eq_some'.mp hw
    have hmem := List.mem_of_find?_eq_some hfind
    have hpred : p.1 = name := by simpa using List.find?_some hfind
    obtain ⟨p1, p2⟩ := p
    simp only at hpred hp
    rw [← hpred, ← hp]
    exact hmem
  · simp [get_workflow, dictGet, List.find?_eq_none]

/-- Witness for the amended C8: a missing name yields `none`. -/
theorem get_workflow_lookup_witness :
    get_workflow [("WeatherWorkflow", weatherWorkflow)] "NopeWorkflow" = none :=
  (get_workflow_lookup [("WeatherWorkflow", weatherWorkflow)] "NopeWorkflow").2.mpr
    (by decide)

/-! ### C9: fallback context window -/

set_option maxRecDepth 8192 in
/-- C9 counterexample: on a 12-turn transcript — well within the 20-turn
cap — the message list sent to the completion call is not the persona
prompt followed by every turn: the two oldest turns are dropped, because
the code slices `conversation_history[-10:]`. -/
theorem chat_messages_omit_early_turns :
    c9Hist.length ≤ 20 ∧
    chatMessages c9Hist ≠ systemMessage :: c9Hist ∧
    (⟨Role.user, "t1"⟩ : Turn) ∈ c9Hist ∧
    (⟨Role.user, "t1"⟩ : Turn) ∉ chatMessages c9Hist := by
  decide

/-- C9 amended: the fallback conversationalist sends the persona system
prompt followed by only the last 10 turns of the transcript — the whole
transcript exactly when it has at most 10 turns — and the message list
still ends with the most recent turn (the current user utterance). -/
theorem chat_messages_last_ten (h : List Turn) :
    chatMessages h = systemMessage :: lastN 10 h ∧
    (h.length ≤ 10 → chatMessages h = systemMessage :: h) ∧
    (∀ t h0, h = h0 ++ [t] → (chatMessages h).getLast? = some t) := by
  refine ⟨rfl, ?_, ?_⟩
  · intro hlen
    unfold chatMessages lastN
    have h0 : h.length - 10 = 0 := by omega
    rw [h0, List.drop_zero]
  · intro t h0 heq
    subst heq
    unfold chatMessages lastN
    have hk : (h0 ++ [t]).length - 10 ≤ h0.length := by
      simp only [List.length_append, List.length_cons, List.length_nil]
      omega
    rw [List.drop_append_of_le_length hk, ← List.cons_append]
    exact List.getLast?_concat _

/-- Witness for the amended C9 at a one-turn transcript. -/
theorem chat_messages_last_ten_witness :
    (chatMessages [⟨Role.user, "hello"⟩]).getLast? = some ⟨Role.user, "hello"⟩ :=
  (chat_messages_last_ten [⟨Role.user, "hello"⟩]).2.2 ⟨Role.user, "hello"⟩ [] rfl

/-! ### C4: idempotence of the speech cleaner -/

/-- C4 counterexample: `clean_text_for_tts` is not idempotent.  On
`"1**.**x"` the first pass removes the bold delimiters, exposing `"1."`,
which only the second pass's list-marker removal strips. -/
theorem clean_not_idempotent :
    clean_text_for_tts (clean_text_for_tts "1**.**x") ≠
      clean_text_for_tts "1**.**x" := by
  decide

/-- C4 amended: a second application of `clean_text_for_tts` can strip
digit-period sequences that the first pass's emphasis/code/notation
removals expose, so the function is not idempotent:
`clean("1**.**x") = "1.x"` while `clean(clean("1**.**x")) = "x"`. -/
theorem clean_second_pass_strips_exposed_markers :
    clean_text_for_tts "1**.**x" = "1.x" ∧
    clean_text_for_tts (clean_text_for_tts "1**.**x") = "x" := by
  decide

/-! ### C5: where list markers are stripped -/

theorem isDigitC_ne_dot {c : Char} (h : isDigitC c = true) : (c == '.') = false := by
  cases hc : c == '.'
  · rfl
  · have hcd : c = '.' := by simpa using hc
    subst hcd
    exact absurd h (by decide)

theorem noDigitDot_cons {c : Char} {l : List Char} (hc : isDigitC c = false)
    (hl : noDigitDot l = true) : noDigitDot (c :: l) = true := by
  cases l with
  | nil => rfl
  | cons d rest => simp [noDigitDot, hc, hl]

theorem noDigitDot_digits_prepend :
    ∀ (p l : List Char), (∀ c ∈ p, isDigitC c = true) →
      noDigitDot l = true →
      (∀ d, l.head? = some d → (d == '.') = false) →
      noDigitDot (p ++ l) = true := by
  intro p
  induction p with
  | nil =>
    intro l _ hl _
    simpa using hl
  | cons c p' ih =>
    intro l hp hl hhead
    have hc : isDigitC c = true := hp c (List.mem_cons_self c p')
    have hrest : noDigitDot (p' ++ l) = true :=
      ih l (fun x hx => hp x (List.mem_cons_of_mem c hx)) hl hhead
    show noDigitDot (c :: (p' ++ l)) = true
    cases hpl : p' ++ l with
    | nil => rfl
    | cons d tail =>
      have hd : (d == '.') = false := by
        cases p' with
        | nil =>
          apply hhead
          simp only [List.nil_append] at hpl
          rw [hpl]
          rfl
        | cons c2 p'' =>
          have hc2 : c2 = d := by
            simp only [List.cons_append] at hpl
            exact (List.cons.injEq _ _ _ _ ▸ hpl).1
          exact isDigitC_ne_dot (hc2 ▸ hp c2 (by simp))
      rw [hpl] at hrest
      simp [noDigitDot, hd, hrest]

theorem sndGo_noDigitDot :
    ∀ (l : List Char) (skip : Bool) (pend : List Char),
      (∀ c ∈ pend, isDigitC c = true) →
      noDigitDot (sndGo skip pend l) = true := by
  intro l
  induction l with
  | nil =>
    intro skip pend hp
    show noDigitDot pend.reverse = true
    have hrev : ∀ c ∈ pend.reverse, isDigitC c = true :=
      fun c hc => hp c (List.mem_reverse.mp hc)
    simpa using noDigitDot_digits_prepend pend.reverse [] hrev rfl
      (by intro d hd; simp at hd)
  | cons c cs ih =>
    intro skip pend hp
    rw [sndGo]
    split
    next h1 => exact ih true [] (by simp)
    next h1 =>
      split
      next h2 =>
        refine ih false (c :: pend) ?_
        intro x hx
        rcases List.mem_cons.mp hx with rfl | hx'
        · exact h2
        · exact hp x hx'
      next h2 =>
        split
        next h3 => exact ih true [] (by simp)
        next h3 =>
          have hcd : isDigitC c = false := by
            cases hcc : isDigitC c
            · rfl
            · exact absurd hcc h2
          have hX : noDigitDot (sndGo false [] cs) = true := ih false [] (by simp)
          have hcl : noDigitDot (c :: sndGo false [] cs) = true := noDigitDot_cons hcd hX
          by_cases hpend : pend = []
          · subst hpend
            simpa using hcl
          · have hc' : (c == '.') = false := by
              cases hcc : c == '.'
              · rfl
              · exfalso
                apply h3
                simp [hcc, hpend]
            refine noDigitDot_digits_prepend pend.reverse (c :: sndGo false [] cs)
              (fun x hx => hp x (List.mem_reverse.mp hx)) hcl ?_
            intro d hd
            have hdc : d = c := by simpa using hd.symm
            rw [hdc]
            exact hc'

/-- C5 counterexample: the digit-period sequence of the mid-sentence
decimal in `"pi is 3.14"` is not preserved: the cleaner deletes `"3."`
although it is no list marker, yielding `"pi is 14"`. -/
theorem decimal_not_preserved :
    clean_text_for_tts "pi is 3.14" = "pi is 14" ∧
    containsSub (clean_text_for_tts "pi is 3.14").data ("3.14".data) = false := by
  decide

/-- C5 amended: the list-marker pass strips every digit run followed by a
period (and trailing whitespace) wherever it occurs, not only at
line/segment start: after that pass no digit is immediately followed by a
period anywhere, and in particular a mid-sentence decimal is rewritten,
`clean("pi is 3.14") = "pi is 14"`. -/
theorem marker_strip_applies_everywhere :
    (∀ l : List Char, noDigitDot (subNumDot l) = true) ∧
    clean_text_for_tts "pi is 3.14" = "pi is 14" := by
  constructor
  · intro l
    exact sndGo_noDigitDot l false [] (by simp)
  · decide

end LemmeTalk
